import Mathlib

/-! The file-serving HTTP responder of `src/main.go`.

A shallow embedding of `parseRequest`, `generateResponse`, `sendResponse` and
`handleConnection`, and the properties of the request/response contract.

Conventions of the embedding.

* A Go `string` is a Lean `String`; a `[]byte` is a list of bytes, and a `nil`
  slice is `none`.
* The process can end in three ways: a function returns, the process exits
  (`os.Exit`, `log.Fatal`), or the Go runtime panics. `Outcome` records which.
* The incoming side of a connection is the list of chunks that successive reads
  of the socket deliver; after the last chunk a read reports the end of the
  stream. `bufio.Reader` is its buffer together with the chunks not yet fetched.
* The file system maps path names to files. Path names are resolved as POSIX
  does: a run of separators counts as a single separator, and a name that
  reaches the length limit of the system is refused. A character of a name
  stands for one byte.
* Lines written to standard output (`fmt.Println`) are not modelled.
-/

namespace HttpServer

/-! ## Data model -/

/-- Raw bytes (`[]byte`). -/
abbrev Bytes := List UInt8

/-- How a call ends: it returns a value, the process exits with a status code,
or the runtime panics. -/
inductive Outcome (α : Type) where
  | ret (a : α)
  | exit (code : Nat)
  | panic
deriving DecidableEq, Repr

/-- Days of the week (`time.Weekday`). -/
inductive Weekday where
  | Sunday | Monday | Tuesday | Wednesday | Thursday | Friday | Saturday
deriving DecidableEq, Repr

/-- English name of a day (`time.Weekday.String`). -/
def Weekday.String : Weekday → String
  | .Sunday => "Sunday"
  | .Monday => "Monday"
  | .Tuesday => "Tuesday"
  | .Wednesday => "Wednesday"
  | .Thursday => "Thursday"
  | .Friday => "Friday"
  | .Saturday => "Saturday"

/-- Months of the year (`time.Month`). -/
inductive Month where
  | January | February | March | April | May | June
  | July | August | September | October | November | December
deriving DecidableEq, Repr

/-- English name of a month (`time.Month.String`). -/
def Month.String : Month → String
  | .January => "January"
  | .February => "February"
  | .March => "March"
  | .April => "April"
  | .May => "May"
  | .June => "June"
  | .July => "July"
  | .August => "August"
  | .September => "September"
  | .October => "October"
  | .November => "November"
  | .December => "December"

/-- A point in time as the accessors of `time.Time` present it. -/
structure Time where
  Weekday : Weekday
  Day : Nat
  Month : Month
  Year : Int
  Hour : Nat
  Minute : Nat
  Second : Nat
deriving DecidableEq, Repr

/-- A file system entry: its content when it can be read (`none` for a
directory or an unreadable file) and its modification time. -/
structure File where
  data : Option Bytes
  modTime : Time
deriving DecidableEq

/-- What `os.Stat` returns (`os.FileInfo`). -/
structure FileInfo where
  ModTime : Time
deriving DecidableEq

/-- Path names in which a run of separators has been replaced by one separator. -/
def collapseSeparators : List Char → List Char
  | [] => []
  | c :: cs =>
    if c = '/' ∧ cs.head? = some '/' then collapseSeparators cs
    else c :: collapseSeparators cs

/-- A file system state: the entries, keyed by path name, and the limit on the
length of a path name. A name of `pathMax` bytes or more is refused with the
error `ENAMETOOLONG`: this is the constant `PATH_MAX` of the system, which counts
the terminating zero byte (4096 on Linux). -/
structure FS where
  entry : String → Option File
  pathMax : Nat

/-- Name resolution: a name that reaches the length limit is refused; in a name
that is accepted, repeated separators are equivalent to one. -/
def FS.lookup (fs : FS) (name : String) : Option File :=
  if name.length < fs.pathMax then fs.entry (String.mk (collapseSeparators name.toList))
  else none

/-- Contents of the named file (`ioutil.ReadFile`); `none` is an error. -/
def ReadFile (fs : FS) (name : String) : Option Bytes :=
  match fs.lookup name with
  | some f => f.data
  | none => none

/-- File information of the named file (`os.Stat`); `none` is an error, in which
case the returned `FileInfo` is nil. -/
def Stat (fs : FS) (name : String) : Option FileInfo :=
  match fs.lookup name with
  | some f => some ⟨f.modTime⟩
  | none => none

/-! ## Library functions -/

/-- Removal of a trailing suffix, when present (`strings.TrimSuffix`). -/
def TrimSuffix (s suffix : String) : String :=
  if suffix.toList <:+ s.toList then
    String.mk (s.toList.take (s.toList.length - suffix.toList.length))
  else s

/-- Removal of a leading prefix, when present (`strings.TrimPrefix`). -/
def TrimPrefix (s pre : String) : String :=
  if pre.toList <+: s.toList then String.mk (s.toList.drop pre.toList.length) else s

/-- Splitting around every occurrence of a one-character separator
(`strings.Split` with a separator of length one). -/
def Split (s : String) (sep : Char) : List String :=
  (s.toList.splitOn sep).map String.mk

/-- The verb `%d` of `fmt.Sprintf`. -/
def Sprintf_d (n : Int) : String := toString n

/-- The verb `%02d` of `fmt.Sprintf` on a non-negative integer: zero-padded to
width two. -/
def Sprintf_02d (n : Nat) : String :=
  if n < 10 then "0" ++ toString n else toString n

/-- The incoming side of a connection: the chunks that successive reads deliver,
followed by the end of the stream. -/
abbrev Conn := List String

/-- A buffered reader (`bufio.Reader`): the bytes fetched and not yet consumed,
and what the connection still holds. -/
structure Reader where
  buf : String
  conn : Conn
deriving DecidableEq, Repr

/-- A reader on a connection, with an empty buffer (`bufio.NewReader`). -/
def NewReader (conn : Conn) : Reader := ⟨"", conn⟩

/-- Number of bytes that can be read from the buffer (`Reader.Buffered`). -/
def Reader.Buffered (r : Reader) : Nat := r.buf.length

/-- Reading up to and including the first line feed, fetching further chunks while
the buffer holds none; `none` when the stream ends first. -/
def readLine (buf : String) : Conn → Option (String × Reader)
  | [] =>
    if '\n' ∈ buf.toList then
      some (String.mk (buf.toList.takeWhile (· ≠ '\n') ++ ['\n']),
            ⟨String.mk ((buf.toList.dropWhile (· ≠ '\n')).drop 1), []⟩)
    else none
  | c :: cs =>
    if '\n' ∈ buf.toList then
      some (String.mk (buf.toList.takeWhile (· ≠ '\n') ++ ['\n']),
            ⟨String.mk ((buf.toList.dropWhile (· ≠ '\n')).drop 1), c :: cs⟩)
    else readLine (buf ++ c) cs

/-- The call `reader.ReadString('\n')`: the line read, with its line feed, and the
reader afterwards; `none` is a read error. -/
def Reader.ReadString (r : Reader) : Option (String × Reader) :=
  readLine r.buf r.conn

/-- Number of bytes not yet consumed, buffered or still in the connection. -/
def Reader.unread (r : Reader) : Nat :=
  r.buf.length + (r.conn.map String.length).sum

/-! ## The program -/

/-- The loop of `parseRequest` that reads the header lines already buffered
(lines 63 to 68). Every iteration consumes at least one byte, so the loop runs at
most as often as there are unread bytes, which is the bound given by
`discardHeaders`. -/
def discardHeadersLoop : Nat → Reader → Outcome Reader
  | 0, reader => .ret reader
  | bound + 1, reader =>
    if reader.Buffered > 0 then
      match reader.ReadString with
      | none => .exit 1
      | some (_, reader) => discardHeadersLoop bound reader
    else .ret reader

/-- The header loop, run on a reader. -/
def discardHeaders (reader : Reader) : Outcome Reader :=
  discardHeadersLoop reader.unread reader

/-- The function `parseRequest` (lines 54 to 83): the request code and the uri of
the request line, or the end of the process. -/
def parseRequest (conn : Conn) : Outcome (String × String) :=
  let reader := NewReader conn
  match reader.ReadString with
  | none => .exit 1
  | some (msg, reader) =>
    let msg := TrimSuffix msg "\r\n"
    match discardHeaders reader with
    | .exit code => .exit code
    | .panic => .panic
    | .ret _ =>
      let msgSplit := Split msg ' '
      if msgSplit.length < 2 then .exit 1
      else if msgSplit.getD 0 "" ≠ "HEAD" ∧ msgSplit.getD 0 "" ≠ "GET" then .exit 1
      else .ret (msgSplit.getD 0 "", msgSplit.getD 1 "")

/-- The header line built at lines 113 to 120 from the modification time. -/
def lastModified (modifiedTime : Time) : String :=
  let dayName := modifiedTime.Weekday.String
  let day := modifiedTime.Day
  let month := modifiedTime.Month.String
  let year := modifiedTime.Year
  let hour := modifiedTime.Hour
  let minutes := modifiedTime.Minute
  let seconds := modifiedTime.Second
  "Last-Modified: " ++ dayName ++ ", " ++ Sprintf_02d day ++ " " ++ month ++ " "
    ++ Sprintf_d year ++ " " ++ Sprintf_02d hour ++ ":" ++ Sprintf_02d minutes ++ ":"
    ++ Sprintf_02d seconds ++ " GMT\r\n"

/-- The function `generateResponse` (lines 90 to 132): the header text and the
data to send, `none` standing for the nil slice. -/
def generateResponse (fs : FS) (code uri : String) : Outcome (String × Option Bytes) :=
  let responseMessage := "HTTP/1.1"
  let fileName := TrimPrefix uri "/"
  let built : Outcome (String × Bytes) :=
    match ReadFile fs ("www/" ++ fileName) with
    | none =>
      let responseMessage := responseMessage ++ " 404 Not found\r\n"
      match ReadFile fs "www/404.html" with
      | none => .exit 1
      | some data => .ret (responseMessage, data)
    | some data =>
      let responseMessage := responseMessage ++ " 200 Okay\r\n"
      let contentLength := data.length
      let responseMessage :=
        responseMessage ++ ("Content-length: " ++ Sprintf_d contentLength ++ "\r\n")
      match Stat fs ("www/" ++ uri) with
      | none => .panic
      | some file =>
        let modifiedTime := file.ModTime
        let responseMessage := responseMessage ++ lastModified modifiedTime
        .ret (responseMessage ++ "Server: cihttp\r\n\r\n", data)
  match built with
  | .exit status => .exit status
  | .panic => .panic
  | .ret (responseMessage, data) =>
    if code = "GET" then .ret (responseMessage, some data)
    else .ret (responseMessage, none)

/-- What is written to the connection. -/
inductive Sent where
  | Fprint (text : String)
  | Write (data : Bytes)
deriving DecidableEq, Repr

/-- The function `sendResponse` (lines 138 to 141). -/
def sendResponse (response : String) (data : Bytes) : List Sent :=
  [.Fprint response, .Write data]

/-- The function `handleConnection` (lines 36 to 47): what is written to the
connection, or the end of the process. -/
def handleConnection (fs : FS) (conn : Conn) : Outcome (List Sent) :=
  match parseRequest conn with
  | .exit status => .exit status
  | .panic => .panic
  | .ret (code, uri) =>
    match generateResponse fs code uri with
    | .exit status => .exit status
    | .panic => .panic
    | .ret (response, some data) => .ret (sendResponse response data)
    | .ret (response, none) => .ret [.Fprint response]


/-! ## Vocabulary of the properties -/

/-- A request line is rejected when, once its trailing CRLF is removed and the
remainder is split on single spaces, it has fewer than two components or its
first component is neither `GET` nor `HEAD`. -/
def rejected (line : String) : Prop :=
  (Split (TrimSuffix line "\r\n") ' ').length < 2
    ∨ ¬ ((Split (TrimSuffix line "\r\n") ' ').head? = some "GET"
          ∨ (Split (TrimSuffix line "\r\n") ' ').head? = some "HEAD")

instance (line : String) : Decidable (rejected line) := by
  unfold rejected
  infer_instance

/-- The text `body` is the line without its trailing CRLF: the line is `body`
followed by CRLF, or the line does not end in CRLF and `body` is the line. -/
def withoutCRLF (line body : String) : Prop :=
  line = body ++ "\r\n" ∨ (body = line ∧ ¬ "\r\n".toList <:+ line.toList)

/-- A string begins with a slash. -/
def beginsWithSlash (s : String) : Prop := "/".toList <+: s.toList

instance (s : String) : Decidable (beginsWithSlash s) := by
  unfold beginsWithSlash
  infer_instance

/-- Two decimal digits that stand for a number below one hundred, zero-padded. -/
def twoDigits (n : Nat) : String :=
  String.mk [Nat.digitChar (n / 10), Nat.digitChar (n % 10)]

/-- Four decimal digits that stand for a number below ten thousand. -/
def fourDigits (n : Nat) : String :=
  String.mk [Nat.digitChar (n / 1000), Nat.digitChar (n / 100 % 10),
    Nat.digitChar (n / 10 % 10), Nat.digitChar (n % 10)]

/-- The pieces of a pattern: a fixed text, or any one decimal digit. -/
inductive Piece where
  | text (s : String)
  | digit

/-- What is left of a list of characters after a given text, when it starts with it. -/
def stripText : List Char → List Char → Option (List Char)
  | [], cs => some cs
  | _ :: _, [] => none
  | p :: ps, c :: cs => if p = c then stripText ps cs else none

/-- A list of characters matches a pattern when it is made of its pieces, in order,
and of nothing else. -/
def matchPieces : List Piece → List Char → Bool
  | [], cs => cs.isEmpty
  | .text s :: ps, cs =>
    match stripText s.toList cs with
    | some left => matchPieces ps left
    | none => false
  | .digit :: _, [] => false
  | .digit :: ps, c :: cs => c.isDigit && matchPieces ps cs

/-- The pattern `Weekday, DD Month YYYY HH:MM:SS GMT` for a given day name and a
given month name. -/
def datePattern (wd : Weekday) (mo : Month) : List Piece :=
  [.text wd.String, .text ", ", .digit, .digit, .text " ", .text mo.String, .text " ",
    .digit, .digit, .digit, .digit, .text " ", .digit, .digit, .text ":", .digit, .digit,
    .text ":", .digit, .digit, .text " GMT"]

/-- All days of the week. -/
def Weekday.all : List Weekday :=
  [.Sunday, .Monday, .Tuesday, .Wednesday, .Thursday, .Friday, .Saturday]

/-- All months. -/
def Month.all : List Month :=
  [.January, .February, .March, .April, .May, .June, .July, .August, .September, .October,
    .November, .December]

/-- A text matches the pattern `Weekday, DD Month YYYY HH:MM:SS GMT` with a full
English day name and a full English month name. -/
def matchesDatePattern (value : String) : Bool :=
  Weekday.all.any fun wd => Month.all.any fun mo => matchPieces (datePattern wd mo) value.toList

/-- Lexical resolution of the segments of a relative path name: empty segments
and `.` are dropped, `..` removes the segment before it, and is kept where there
is none to remove. The first argument holds the segments resolved so far, last
segment first. -/
def resolveSegments : List String → List String → List String
  | done, [] => done.reverse
  | done, seg :: segs =>
    if seg = "" ∨ seg = "." then resolveSegments done segs
    else if seg = ".." then
      match done with
      | [] => resolveSegments [".."] segs
      | top :: below =>
        if top = ".." then resolveSegments (".." :: top :: below) segs
        else resolveSegments below segs
    else resolveSegments (seg :: done) segs

/-- The segments of a path name once `.` and `..` are resolved. -/
def resolvePath (name : String) : List String :=
  resolveSegments [] (Split name '/')

/-- A path name lies inside the content root `www` when, once resolved, it starts
with the segment `www`. -/
def insideRoot (name : String) : Prop := (resolvePath name).head? = some "www"

instance (name : String) : Decidable (insideRoot name) := by
  unfold insideRoot
  infer_instance

/-- The first of January 999, at midnight. -/
def year999 : Time := ⟨.Tuesday, 1, .January, 999, 0, 0, 0⟩

/-! ## A content root used to run the program on concrete requests -/

/-- The bytes of `Hello World!`. -/
def helloWorld : Bytes := [72, 101, 108, 108, 111, 32, 87, 111, 114, 108, 100, 33]

/-- The bytes of `Not Found`. -/
def notFound : Bytes := [78, 111, 116, 32, 70, 111, 117, 110, 100]

/-- Tuesday 5 March 2024, 09:07:03. -/
def sampleTime : Time := ⟨.Tuesday, 5, .March, 2024, 9, 7, 3⟩

/-- A content root `www` holding `index.html` and `404.html`, next to the file
`main.go` outside the content root, on a system whose path names are limited to
4096 bytes, terminating zero byte included. -/
def sampleFS : FS where
  entry name :=
    if name = "www/index.html" then some ⟨some helloWorld, sampleTime⟩
    else if name = "www/404.html" then some ⟨some notFound, sampleTime⟩
    else if name = "www" ∨ name = "www/" then some ⟨none, sampleTime⟩
    else if name = "main.go" ∨ name = "www/../main.go" then some ⟨some [112], sampleTime⟩
    else none
  pathMax := 4096

/-- A target path of 4092 bytes that names `index.html`: a slash, 4081 further
slashes, and `index.html`. -/
def longUri : String := "/" ++ String.mk (List.replicate 4081 '/') ++ "index.html"

/-! ## Path names -/

theorem collapseSeparators_www (l : List Char) :
    collapseSeparators ('w' :: 'w' :: 'w' :: '/' :: '/' :: l)
      = collapseSeparators ('w' :: 'w' :: 'w' :: '/' :: l) := by
  simp [collapseSeparators]

theorem TrimPrefix_slash (uri : String) :
    (∃ l, uri.toList = '/' :: l ∧ TrimPrefix uri "/" = String.mk l)
      ∨ (TrimPrefix uri "/" = uri) := by
  unfold TrimPrefix
  by_cases h : "/".toList <+: uri.toList
  · left
    obtain ⟨t, ht⟩ := h
    have ht2 : uri.toList = '/' :: t := by rw [← ht]; rfl
    refine ⟨t, ht2, ?_⟩
    rw [if_pos ⟨t, ht⟩, ht2]
    rfl
  · right
    rw [if_neg h]

theorem TrimPrefix_slash_cons (s : String) (l : List Char) (h : s.toList = '/' :: l) :
    TrimPrefix s "/" = String.mk l := by
  unfold TrimPrefix
  have hp : "/".toList <+: s.toList := ⟨l, by rw [h]; rfl⟩
  rw [if_pos hp, h]
  rfl

/-- The name used for the modification time is the name used for the read, or
that name with one more slash after `www/`. -/
theorem stat_name_cases (uri : String) :
    "www/" ++ uri = "www/" ++ TrimPrefix uri "/"
      ∨ ∃ l, ("www/" ++ uri).toList = 'w' :: 'w' :: 'w' :: '/' :: '/' :: l
          ∧ ("www/" ++ TrimPrefix uri "/").toList = 'w' :: 'w' :: 'w' :: '/' :: l := by
  rcases TrimPrefix_slash uri with ⟨l, hl, ht⟩ | ht
  · right
    refine ⟨l, ?_, ?_⟩
    · simp [String.toList, String.data_append] at hl ⊢
      exact hl
    · rw [ht]
      simp [String.toList, String.data_append]
  · left
    rw [ht]

/-- When the name used for the modification time resolves, it resolves to the file
that the name used for the read resolves to. -/
theorem lookup_stat_name (fs : FS) (uri : String) (f : File)
    (h : fs.lookup ("www/" ++ uri) = some f) :
    fs.lookup ("www/" ++ TrimPrefix uri "/") = some f := by
  rcases stat_name_cases uri with he | ⟨l, h1, h2⟩
  · rw [← he]
    exact h
  · unfold FS.lookup at h ⊢
    have hlen1 : ("www/" ++ uri).length = l.length + 5 := by
      show ("www/" ++ uri).toList.length = _
      rw [h1]
      rfl
    have hlen2 : ("www/" ++ TrimPrefix uri "/").length = l.length + 4 := by
      show ("www/" ++ TrimPrefix uri "/").toList.length = _
      rw [h2]
      rfl
    by_cases hlt : ("www/" ++ uri).length < fs.pathMax
    · rw [if_pos hlt, h1, collapseSeparators_www] at h
      rw [if_pos (by omega), h2]
      exact h
    · rw [if_neg hlt] at h
      cases h

/-- When the name used for the modification time is within the length limit, it
resolves as the name used for the read does. -/
theorem lookup_stat_name_short (fs : FS) (uri : String)
    (hlen : ("www/" ++ uri).length < fs.pathMax) :
    fs.lookup ("www/" ++ uri) = fs.lookup ("www/" ++ TrimPrefix uri "/") := by
  rcases stat_name_cases uri with he | ⟨l, h1, h2⟩
  · rw [← he]
  · unfold FS.lookup
    have hlen1 : ("www/" ++ uri).length = l.length + 5 := by
      show ("www/" ++ uri).toList.length = _
      rw [h1]
      rfl
    have hlen2 : ("www/" ++ TrimPrefix uri "/").length = l.length + 4 := by
      show ("www/" ++ TrimPrefix uri "/").toList.length = _
      rw [h2]
      rfl
    rw [if_pos hlen, if_pos (by omega), h1, h2, collapseSeparators_www]

/-- A run of slashes after a slash is dropped by `collapseSeparators`. -/
theorem collapseSeparators_run (n : Nat) (l : List Char) :
    collapseSeparators ('/' :: (List.replicate n '/' ++ l)) = collapseSeparators ('/' :: l) := by
  induction n with
  | zero => rfl
  | succ n ih =>
    rw [List.replicate_succ, List.cons_append, collapseSeparators]
    rw [if_pos ⟨rfl, rfl⟩]
    exact ih

/-- The characters of the long target path. -/
theorem longUri_toList :
    longUri.toList = '/' :: (List.replicate 4081 '/' ++ "index.html".toList) := by
  unfold longUri
  simp only [String.toList, String.data_append]
  rfl

/-- The long target path without its leading slash. -/
theorem TrimPrefix_longUri :
    TrimPrefix longUri "/" = String.mk (List.replicate 4081 '/' ++ "index.html".toList) :=
  TrimPrefix_slash_cons longUri _ longUri_toList

/-- The name read for the long target path has 4095 bytes and resolves to
`www/index.html`. -/
theorem lookup_long_read_name :
    ("www/" ++ TrimPrefix longUri "/").length = 4095
      ∧ sampleFS.lookup ("www/" ++ TrimPrefix longUri "/")
          = some ⟨some helloWorld, sampleTime⟩ := by
  have hl : ("www/" ++ TrimPrefix longUri "/").toList
      = 'w' :: 'w' :: 'w' :: '/' :: (List.replicate 4081 '/' ++ "index.html".toList) := by
    rw [TrimPrefix_longUri]
    simp only [String.toList, String.data_append]
    rfl
  have hlen : ("www/" ++ TrimPrefix longUri "/").length = 4095 := by
    show ("www/" ++ TrimPrefix longUri "/").toList.length = _
    rw [hl]
    simp only [List.length_cons, List.length_append, List.length_replicate]
    rfl
  refine ⟨hlen, ?_⟩
  unfold FS.lookup
  rw [hlen, if_pos (by decide), hl]
  have hc : collapseSeparators
      ('w' :: 'w' :: 'w' :: '/' :: (List.replicate 4081 '/' ++ "index.html".toList))
      = "www/index.html".toList := by
    rw [collapseSeparators, if_neg (by decide), collapseSeparators, if_neg (by decide),
      collapseSeparators, if_neg (by decide), collapseSeparators_run]
    decide
  rw [hc]
  rfl

/-- The name used for the modification time of the long target path has 4096
bytes and is refused. -/
theorem lookup_long_stat_name :
    ("www/" ++ longUri).length = 4096 ∧ sampleFS.lookup ("www/" ++ longUri) = none := by
  have hlen : ("www/" ++ longUri).length = 4096 := by
    show ("www/" ++ longUri).toList.length = _
    have : ("www/" ++ longUri).toList = "www/".toList ++ longUri.toList := by
      simp only [String.toList, String.data_append]
    rw [this, longUri_toList]
    simp only [List.length_cons, List.length_append, List.length_replicate]
    rfl
  refine ⟨hlen, ?_⟩
  unfold FS.lookup
  rw [hlen, if_neg (by decide)]

theorem Sprintf_d_nat (n : Nat) : Sprintf_d (n : Int) = toString n := rfl

/-! ## Reading from the connection -/

/-- A line that is read is taken from the unread bytes: fewer remain afterwards. -/
theorem readLine_unread (conn : Conn) :
    ∀ (buf line : String) (r : Reader), readLine buf conn = some (line, r) →
      r.unread < buf.length + (conn.map String.length).sum := by
  have key : ∀ (buf : String) (n : Nat), '\n' ∈ buf.toList →
      (String.mk ((buf.toList.dropWhile (· ≠ '\n')).drop 1)).length + n < buf.length + n := by
    intro buf n hmem
    have hne : buf.toList.dropWhile (· ≠ '\n') ≠ [] := by
      intro h
      rw [List.dropWhile_eq_nil_iff] at h
      simpa using h '\n' hmem
    have hle : (buf.toList.dropWhile (· ≠ '\n')).length ≤ buf.toList.length :=
      (List.dropWhile_suffix _).length_le
    have hpos : 0 < (buf.toList.dropWhile (· ≠ '\n')).length := List.length_pos.mpr hne
    have hb : buf.length = buf.toList.length := rfl
    rw [String.length_mk, List.length_drop, hb]
    omega
  induction conn with
  | nil =>
    intro buf line r h
    unfold readLine at h
    by_cases hmem : '\n' ∈ buf.toList
    · rw [if_pos hmem] at h
      cases h
      exact key buf _ hmem
    · rw [if_neg hmem] at h
      cases h
  | cons c cs ih =>
    intro buf line r h
    unfold readLine at h
    by_cases hmem : '\n' ∈ buf.toList
    · rw [if_pos hmem] at h
      cases h
      exact key buf _ hmem
    · rw [if_neg hmem] at h
      have := ih (buf ++ c) line r h
      rw [String.length_append] at this
      simp only [List.map_cons, List.sum_cons]
      omega

/-- Every call of `ReadString` that succeeds consumes at least one byte. -/
theorem ReadString_unread (r r2 : Reader) (line : String)
    (h : r.ReadString = some (line, r2)) : r2.unread < r.unread :=
  readLine_unread r.conn r.buf line r2 h

/-- The buffered bytes are among the unread bytes. -/
theorem Buffered_le_unread (r : Reader) : r.Buffered ≤ r.unread := by
  unfold Reader.Buffered Reader.unread
  omega

/-- Any two bounds that cover the unread bytes give the same run of the loop. -/
theorem discardHeadersLoop_bound :
    ∀ (n m : Nat) (r : Reader), r.unread ≤ n → r.unread ≤ m →
      discardHeadersLoop n r = discardHeadersLoop m r := by
  intro n
  induction n with
  | zero =>
    intro m r hn _
    have hb : ¬ r.Buffered > 0 := by
      have := Buffered_le_unread r
      omega
    cases m with
    | zero => rfl
    | succ m => simp [discardHeadersLoop, hb]
  | succ n ih =>
    intro m r hn hm
    cases m with
    | zero =>
      have hb : ¬ r.Buffered > 0 := by
        have := Buffered_le_unread r
        omega
      simp [discardHeadersLoop, hb]
    | succ m =>
      unfold discardHeadersLoop
      by_cases hb : r.Buffered > 0
      · rw [if_pos hb, if_pos hb]
        cases hr : r.ReadString with
        | none => rfl
        | some res =>
          obtain ⟨line, r2⟩ := res
          have := ReadString_unread r r2 line hr
          exact ih m r2 (by omega) (by omega)
      · rw [if_neg hb, if_neg hb]

/-- One iteration of the header loop. -/
theorem discardHeadersLoop_succ (k : Nat) (r : Reader) :
    discardHeadersLoop (k + 1) r
      = if r.Buffered > 0 then
          match r.ReadString with
          | none => .exit 1
          | some (_, r2) => discardHeadersLoop k r2
        else .ret r := rfl

/-- The header loop satisfies the equation of the source loop: while bytes are
buffered, read a line, stopping the process on a read error. The bound on the
number of iterations is never what ends the loop. -/
theorem discardHeaders_loop (r : Reader) :
    discardHeaders r
      = if r.Buffered > 0 then
          match r.ReadString with
          | none => .exit 1
          | some (_, r2) => discardHeaders r2
        else .ret r := by
  by_cases hb : r.Buffered > 0
  · rw [if_pos hb]
    have hpos : 0 < r.unread := lt_of_lt_of_le hb (Buffered_le_unread r)
    obtain ⟨k, hk⟩ : ∃ k, r.unread = k + 1 := ⟨r.unread - 1, by omega⟩
    have h1 : discardHeaders r = discardHeadersLoop (k + 1) r := by
      unfold discardHeaders
      rw [hk]
    rw [h1, discardHeadersLoop_succ, if_pos hb]
    cases hr : r.ReadString with
    | none => rfl
    | some res =>
      obtain ⟨line, r2⟩ := res
      have := ReadString_unread r r2 line hr
      exact discardHeadersLoop_bound k r2.unread r2 (by omega) le_rfl
  · rw [if_neg hb]
    unfold discardHeaders
    cases r.unread with
    | zero => rfl
    | succ k => rw [discardHeadersLoop_succ, if_neg hb]

/-- The header loop ends by returning or by exit status 1. -/
theorem discardHeadersLoop_outcome :
    ∀ (n : Nat) (r : Reader),
      (∃ r2, discardHeadersLoop n r = .ret r2) ∨ discardHeadersLoop n r = .exit 1 := by
  intro n
  induction n with
  | zero => intro r; exact Or.inl ⟨r, rfl⟩
  | succ n ih =>
    intro r
    unfold discardHeadersLoop
    by_cases hb : r.Buffered > 0
    · rw [if_pos hb]
      cases hr : r.ReadString with
      | none => exact Or.inr rfl
      | some res => exact ih res.2
    · rw [if_neg hb]
      exact Or.inl ⟨r, rfl⟩

/-- The header loop ends by returning or by exit status 1. -/
theorem discardHeaders_outcome (r : Reader) :
    (∃ r2, discardHeaders r = .ret r2) ∨ discardHeaders r = .exit 1 :=
  discardHeadersLoop_outcome r.unread r

/-! ## Parsing the request line -/

/-- Splitting never yields an empty list of components. -/
theorem Split_ne_nil (s : String) (sep : Char) : Split s sep ≠ [] := by
  unfold Split List.splitOn
  simp [List.splitOnP_ne_nil]

/-- No component of a split contains an element on which the split is made. -/
theorem splitOnP_no_sep (p : Char → Bool) :
    ∀ (xs : List Char), ∀ l ∈ xs.splitOnP p, ∀ y ∈ l, p y = false := by
  intro xs
  induction xs with
  | nil =>
    intro l hl y hy
    rw [List.splitOnP_nil] at hl
    simp at hl
    subst hl
    simp at hy
  | cons x xs ih =>
    intro l hl y hy
    rw [List.splitOnP_cons] at hl
    by_cases hx : p x = true
    · rw [if_pos hx] at hl
      rcases List.mem_cons.mp hl with h | h
      · subst h
        simp at hy
      · exact ih l h y hy
    · rw [if_neg hx] at hl
      cases hs : List.splitOnP p xs with
      | nil => exact absurd hs (List.splitOnP_ne_nil p xs)
      | cons h t =>
        rw [hs] at hl ih
        simp only [List.modifyHead] at hl
        rcases List.mem_cons.mp hl with h1 | h1
        · subst h1
          rcases List.mem_cons.mp hy with h2 | h2
          · subst h2
            simpa using hx
          · exact ih h (List.mem_cons_self _ _) y h2
        · exact ih l (List.mem_cons_of_mem _ h1) y hy

/-- No component of a split contains the separator. -/
theorem Split_no_sep (s : String) (sep : Char) (c : String) (hc : c ∈ Split s sep) :
    sep ∉ c.toList := by
  unfold Split List.splitOn at hc
  obtain ⟨l, hl, rfl⟩ := List.mem_map.mp hc
  intro hmem
  have := splitOnP_no_sep (fun x => x == sep) s.toList l hl sep hmem
  simp at this

/-- A trailing CRLF is removed. -/
theorem TrimSuffix_crlf (s : String) : TrimSuffix (s ++ "\r\n") "\r\n" = s := by
  unfold TrimSuffix
  have hsuf : "\r\n".toList <:+ (s ++ "\r\n").toList := ⟨s.toList, by simp [String.toList]⟩
  rw [if_pos hsuf]
  have : (s ++ "\r\n").toList = s.toList ++ "\r\n".toList := by simp [String.toList]
  rw [this, List.length_append, Nat.add_sub_cancel, List.take_left' rfl]
  rfl

/-- Three components without space, joined by single spaces, split into themselves. -/
theorem Split_three (M P V : String) (hM : ' ' ∉ M.toList) (hP : ' ' ∉ P.toList)
    (hV : ' ' ∉ V.toList) : Split (M ++ " " ++ P ++ " " ++ V) ' ' = [M, P, V] := by
  unfold Split
  have h : (M ++ " " ++ P ++ " " ++ V).toList
      = [' '].intercalate [M.toList, P.toList, V.toList] := by
    simp [String.toList, List.intercalate]
  rw [h, List.splitOn_intercalate]
  · rfl
  · intro l hl
    simp only [List.mem_cons, List.mem_singleton, List.not_mem_nil, or_false] at hl
    rcases hl with rfl | rfl | rfl <;> assumption
  · simp

/-- The text that was split is its first two components joined by a space,
followed by nothing or by a space and the further components. -/
theorem Split_two (s c0 c1 : String) (more : List String)
    (h : Split s ' ' = c0 :: c1 :: more) :
    ∃ tail : String, s = c0 ++ " " ++ c1 ++ tail ∧ (tail = "" ∨ ∃ t : String, tail = " " ++ t) := by
  replace h : List.map String.mk (s.toList.splitOn ' ') = c0 :: c1 :: more := h
  have hj : [' '].intercalate (s.toList.splitOn ' ') = s.toList :=
    List.intercalate_splitOn s.toList ' '
  cases hl : s.toList.splitOn ' ' with
  | nil =>
    rw [hl] at h
    simp at h
  | cons l0 ls =>
    cases ls with
    | nil =>
      rw [hl] at h
      simp at h
    | cons l1 ls =>
      rw [hl] at h hj
      simp only [List.map_cons, List.cons.injEq] at h
      obtain ⟨h0, h1, _⟩ := h
      subst h0 h1
      cases ls with
      | nil =>
        refine ⟨"", ?_, Or.inl rfl⟩
        apply String.ext
        simp [List.intercalate] at hj
        simp [String.data_append, ← hj, String.toList]
      | cons l2 ls =>
        refine ⟨" " ++ String.mk ([' '].intercalate (l2 :: ls)), ?_, Or.inr ⟨_, rfl⟩⟩
        apply String.ext
        simp [List.intercalate] at hj
        simp [String.data_append, ← hj, String.toList, List.intercalate]

/-- After the request line is read, `parseRequest` runs the header loop and then
checks the components of the line. -/
theorem parseRequest_read (conn : Conn) (line : String) (rest : Reader)
    (hread : (NewReader conn).ReadString = some (line, rest)) :
    parseRequest conn
      = match discardHeaders rest with
        | .exit code => .exit code
        | .panic => .panic
        | .ret _ =>
          if (Split (TrimSuffix line "\r\n") ' ').length < 2 then .exit 1
          else if (Split (TrimSuffix line "\r\n") ' ').getD 0 "" ≠ "HEAD"
              ∧ (Split (TrimSuffix line "\r\n") ' ').getD 0 "" ≠ "GET" then .exit 1
          else .ret ((Split (TrimSuffix line "\r\n") ' ').getD 0 "",
                     (Split (TrimSuffix line "\r\n") ' ').getD 1 "") := by
  unfold parseRequest
  simp only [hread]

/-- A request that is accepted has been read and its header loop has returned. -/
theorem parseRequest_ret (conn : Conn) (code uri : String)
    (h : parseRequest conn = .ret (code, uri)) :
    ∃ line rest r, (NewReader conn).ReadString = some (line, rest)
      ∧ discardHeaders rest = .ret r
      ∧ ∃ more, Split (TrimSuffix line "\r\n") ' ' = code :: uri :: more
          ∧ (code = "GET" ∨ code = "HEAD") := by
  cases hr : (NewReader conn).ReadString with
  | none =>
    unfold parseRequest at h
    simp [hr] at h
  | some res =>
    obtain ⟨line, rest⟩ := res
    rw [parseRequest_read conn line rest hr] at h
    rcases discardHeaders_outcome rest with ⟨r, hd⟩ | hd
    · refine ⟨line, rest, r, rfl, hd, ?_⟩
      rw [hd] at h
      simp only at h
      cases hs : Split (TrimSuffix line "\r\n") ' ' with
      | nil => simp [hs] at h
      | cons c0 t =>
        cases t with
        | nil => simp [hs] at h
        | cons c1 more =>
          rw [hs] at h
          simp only [List.length_cons, List.getD_cons_zero, List.getD_cons_succ] at h
          rw [if_neg (by omega)] at h
          split_ifs at h with h2
          · cases h
            refine ⟨more, rfl, ?_⟩
            by_cases hg : code = "GET"
            · exact Or.inl hg
            · right
              by_contra hh
              exact h2 ⟨hh, hg⟩
    · rw [hd] at h
      simp at h

/-- The check of the components is the rejection of the line. -/
theorem checks_rejected (line : String) :
    ((if (Split (TrimSuffix line "\r\n") ' ').length < 2 then Outcome.exit 1
      else if (Split (TrimSuffix line "\r\n") ' ').getD 0 "" ≠ "HEAD"
          ∧ (Split (TrimSuffix line "\r\n") ' ').getD 0 "" ≠ "GET" then .exit 1
      else .ret ((Split (TrimSuffix line "\r\n") ' ').getD 0 "",
                 (Split (TrimSuffix line "\r\n") ' ').getD 1 "")) = .exit 1)
      ↔ rejected line := by
  unfold rejected
  cases hs : Split (TrimSuffix line "\r\n") ' ' with
  | nil => simp
  | cons c0 t =>
    cases t with
    | nil => simp
    | cons c1 more =>
      simp only [List.length_cons, List.getD_cons_zero, List.getD_cons_succ, List.head?_cons,
        Option.some.injEq]
      have h2 : ¬ (more.length + 1 + 1 < 2) := by omega
      rw [if_neg h2]
      by_cases hg : c0 = "GET" <;> by_cases hh : c0 = "HEAD" <;> simp [hg, hh, h2]

/-- What `TrimSuffix` returns is the line without its trailing CRLF. -/
theorem TrimSuffix_withoutCRLF (line : String) :
    withoutCRLF line (TrimSuffix line "\r\n") := by
  unfold withoutCRLF TrimSuffix
  by_cases h : "\r\n".toList <:+ line.toList
  · left
    rw [if_pos h]
    obtain ⟨t, ht⟩ := h
    apply String.ext
    rw [String.data_append]
    show line.toList = (List.take (line.toList.length - "\r\n".toList.length) line.toList) ++ _
    rw [← ht, List.length_append, Nat.add_sub_cancel, List.take_left' rfl]
    rfl
  · right
    rw [if_neg h]
    exact ⟨rfl, h⟩

/-- Two components without space, joined by a single space, split into themselves. -/
theorem Split_pair (M P : String) (hM : ' ' ∉ M.toList) (hP : ' ' ∉ P.toList) :
    Split (M ++ " " ++ P) ' ' = [M, P] := by
  unfold Split
  have h : (M ++ " " ++ P).toList = [' '].intercalate [M.toList, P.toList] := by
    simp [String.toList, List.intercalate]
  rw [h, List.splitOn_intercalate]
  · rfl
  · intro l hl
    simp only [List.mem_cons, List.mem_singleton, List.not_mem_nil, or_false] at hl
    rcases hl with rfl | rfl <;> assumption
  · simp

/-- A request line of a method, a path and a version is accepted with its method
and its path when the header lines buffered behind it are read. -/
theorem parseRequest_line3 (c : Conn) (rs : Reader) (M P V : String)
    (hM : M = "GET" ∨ M = "HEAD") (hP : ' ' ∉ P.toList) (hV : ' ' ∉ V.toList)
    (hr : (NewReader c).ReadString = some (M ++ " " ++ P ++ " " ++ V ++ "\r\n", rs))
    (hd : ∃ r, discardHeaders rs = .ret r) : parseRequest c = .ret (M, P) := by
  obtain ⟨r, hd⟩ := hd
  have hMs : ' ' ∉ M.toList := by
    rcases hM with rfl | rfl <;> decide
  rw [parseRequest_read c _ rs hr, hd, TrimSuffix_crlf, Split_three M P V hMs hP hV]
  rcases hM with rfl | rfl <;> simp

/-- A request line of a method and a path is accepted with its method and its
path, without the CRLF, when the header lines buffered behind it are read. -/
theorem parseRequest_line2 (c : Conn) (rs : Reader) (M P : String)
    (hM : M = "GET" ∨ M = "HEAD") (hP : ' ' ∉ P.toList)
    (hr : (NewReader c).ReadString = some (M ++ " " ++ P ++ "\r\n", rs))
    (hd : ∃ r, discardHeaders rs = .ret r) : parseRequest c = .ret (M, P) := by
  obtain ⟨r, hd⟩ := hd
  have hMs : ' ' ∉ M.toList := by
    rcases hM with rfl | rfl <;> decide
  rw [parseRequest_read c _ rs hr, hd, TrimSuffix_crlf, Split_pair M P hMs hP]
  rcases hM with rfl | rfl <;> simp

/-- A line that is all the connection delivers is read whole and leaves nothing
buffered. -/
theorem ReadString_single (pre : String) (hpre : '\n' ∉ pre.toList) :
    (NewReader [pre ++ "\n"]).ReadString = some (pre ++ "\n", ⟨"", []⟩) := by
  have hl : ("" ++ (pre ++ "\n")).toList = pre.toList ++ ['\n'] := by
    simp [String.toList]
  have hp : ∀ a ∈ pre.toList, (decide (a ≠ '\n')) = true := by
    intro a ha
    simp only [decide_eq_true_eq]
    rintro rfl
    exact hpre ha
  have ht : (pre.toList ++ ['\n']).takeWhile (· ≠ '\n') = pre.toList := by
    rw [List.takeWhile_append_of_pos hp]
    simp
  have hd : (pre.toList ++ ['\n']).dropWhile (· ≠ '\n') = ['\n'] := by
    rw [List.dropWhile_append_of_pos hp]
    simp
  have hs : String.mk (pre.toList ++ ['\n']) = pre ++ "\n" := by
    apply String.ext
    simp [String.toList]
  unfold Reader.ReadString NewReader
  simp only
  unfold readLine
  rw [if_neg (by simp [String.toList])]
  unfold readLine
  rw [hl, if_pos (by simp), ht, hd, hs]
  rfl

/-- With nothing buffered the header loop returns at once. -/
theorem discardHeaders_empty (conn : Conn) :
    discardHeaders ⟨"", conn⟩ = .ret ⟨"", conn⟩ := by
  rw [discardHeaders_loop]
  rfl

/-- The function `parseRequest` ends by exit status 1 or returns a code and a uri. -/
theorem parseRequest_outcome (conn : Conn) :
    parseRequest conn = .exit 1 ∨ ∃ code uri, parseRequest conn = .ret (code, uri) := by
  cases hr : (NewReader conn).ReadString with
  | none =>
    left
    unfold parseRequest
    simp [hr]
  | some res =>
    obtain ⟨line, rest⟩ := res
    rw [parseRequest_read conn line rest hr]
    rcases discardHeaders_outcome rest with ⟨r, hd⟩ | hd
    · rw [hd]
      simp only
      split_ifs
      · exact Or.inl rfl
      · exact Or.inl rfl
      · exact Or.inr ⟨_, _, rfl⟩
    · rw [hd]
      exact Or.inl rfl

/-- A line that arrives in two chunks is read whole, and what follows it in the
second chunk stays buffered. -/
theorem ReadString_two (c1 pre2 post : String) (h1 : '\n' ∉ c1.toList)
    (h2 : '\n' ∉ pre2.toList) :
    (NewReader [c1, pre2 ++ "\n" ++ post]).ReadString
      = some (c1 ++ pre2 ++ "\n", ⟨post, []⟩) := by
  have hl : ("" ++ c1 ++ (pre2 ++ "\n" ++ post)).toList
      = (c1.toList ++ pre2.toList) ++ '\n' :: post.toList := by
    simp [String.toList]
  have hp : ∀ a ∈ c1.toList ++ pre2.toList, (decide (a ≠ '\n')) = true := by
    intro a ha
    simp only [decide_eq_true_eq]
    rintro rfl
    rcases List.mem_append.mp ha with h | h
    · exact h1 h
    · exact h2 h
  have ht : ((c1.toList ++ pre2.toList) ++ '\n' :: post.toList).takeWhile (· ≠ '\n')
      = c1.toList ++ pre2.toList := by
    rw [List.takeWhile_append_of_pos hp]
    simp
  have hd : ((c1.toList ++ pre2.toList) ++ '\n' :: post.toList).dropWhile (· ≠ '\n')
      = '\n' :: post.toList := by
    rw [List.dropWhile_append_of_pos hp]
    simp
  have hs : String.mk (c1.toList ++ pre2.toList ++ ['\n']) = c1 ++ pre2 ++ "\n" := by
    apply String.ext
    simp [String.toList]
  unfold Reader.ReadString NewReader
  simp only
  unfold readLine
  rw [if_neg (by simp [String.toList])]
  unfold readLine
  rw [if_neg (by simpa [String.toList] using h1)]
  unfold readLine
  rw [hl, if_pos (by simp), ht, hd, hs]
  rfl

/-- The characters of the long target path are slashes and the characters of
`index.html`. -/
theorem longUri_chars (x : Char) (h : x ∈ longUri.toList) :
    x = '/' ∨ x ∈ "index.html".toList := by
  rw [longUri_toList] at h
  rcases List.mem_cons.mp h with h | h
  · exact Or.inl h
  · rcases List.mem_append.mp h with h | h
    · exact Or.inl (List.eq_of_mem_replicate h)
    · exact Or.inr h

/-- The request for the long target path, arriving in a chunk of 4096 bytes and a
second chunk, is accepted. -/
theorem parseRequest_longUri :
    parseRequest ["GET " ++ longUri, " HTTP/1.1\r\n\r\n"] = .ret ("GET", longUri) := by
  have hsp : ' ' ∉ longUri.toList := by
    intro h
    rcases longUri_chars _ h with h | h
    · exact absurd h (by decide)
    · exact absurd h (by decide)
  have hnl : '\n' ∉ ("GET " ++ longUri).toList := by
    intro h
    have h' : '\n' ∈ "GET ".toList ++ longUri.toList := by
      simpa only [String.toList, String.data_append] using h
    rcases List.mem_append.mp h' with h | h
    · exact absurd h (by decide)
    · rcases longUri_chars _ h with h | h
      · exact absurd h (by decide)
      · exact absurd h (by decide)
  have hc2 : " HTTP/1.1\r\n\r\n" = " HTTP/1.1\r" ++ "\n" ++ "\r\n" := by decide
  have hr := ReadString_two ("GET " ++ longUri) " HTTP/1.1\r" "\r\n" hnl (by decide)
  rw [← hc2] at hr
  have hline : "GET " ++ longUri ++ " HTTP/1.1\r" ++ "\n"
      = "GET" ++ " " ++ longUri ++ " " ++ "HTTP/1.1" ++ "\r\n" := by
    have e1 : "GET " = "GET" ++ " " := by decide
    have e2 : " HTTP/1.1\r" ++ "\n" = " " ++ ("HTTP/1.1" ++ "\r\n") := by decide
    rw [e1, String.append_assoc _ " HTTP/1.1\r" "\n", e2]
    simp only [String.append_assoc]
  rw [hline] at hr
  exact parseRequest_line3 _ _ "GET" longUri "HTTP/1.1" (Or.inl rfl) hsp (by decide) hr
    ⟨⟨"", []⟩, by decide⟩

/-! ## Response generation -/

/-- A successful read names an entry of the file system. -/
theorem ReadFile_some (fs : FS) (name : String) (data : Bytes)
    (h : ReadFile fs name = some data) :
    ∃ f, fs.lookup name = some f ∧ f.data = some data := by
  unfold ReadFile at h
  cases hl : fs.lookup name with
  | none => simp [hl] at h
  | some f => exact ⟨f, rfl, by simpa [hl] using h⟩

/-- The response for a file that is read and whose modification time is found. -/
theorem generateResponse_found (fs : FS) (code uri : String) (data : Bytes) (info : FileInfo)
    (hread : ReadFile fs ("www/" ++ TrimPrefix uri "/") = some data)
    (hstat : Stat fs ("www/" ++ uri) = some info) :
    generateResponse fs code uri
      = .ret ("HTTP/1.1" ++ " 200 Okay\r\n"
                ++ ("Content-length: " ++ Sprintf_d data.length ++ "\r\n")
                ++ lastModified info.ModTime ++ "Server: cihttp\r\n\r\n",
              if code = "GET" then some data else none) := by
  unfold generateResponse
  simp only [hread, hstat]
  by_cases hc : code = "GET" <;> simp [hc]

/-- The end of `generateResponse` for a file that is read and whose modification
time is not found: the nil result of `os.Stat` is dereferenced. -/
theorem generateResponse_nil_stat (fs : FS) (code uri : String) (data : Bytes)
    (hread : ReadFile fs ("www/" ++ TrimPrefix uri "/") = some data)
    (hstat : Stat fs ("www/" ++ uri) = none) :
    generateResponse fs code uri = .panic := by
  unfold generateResponse
  simp only [hread, hstat]

/-- The response when the file cannot be read and the fallback file can. -/
theorem generateResponse_missing (fs : FS) (code uri : String) (F : Bytes)
    (hmiss : ReadFile fs ("www/" ++ TrimPrefix uri "/") = none)
    (h404 : ReadFile fs "www/404.html" = some F) :
    generateResponse fs code uri
      = .ret ("HTTP/1.1" ++ " 404 Not found\r\n", if code = "GET" then some F else none) := by
  unfold generateResponse
  simp only [hmiss, h404]
  by_cases hc : code = "GET" <;> simp [hc]

/-- The method decides only whether the data is returned. -/
theorem generateResponse_method (fs : FS) (code uri hdr : String) (pay : Option Bytes)
    (h : generateResponse fs code uri = .ret (hdr, pay)) (code2 : String) :
    ∃ data, generateResponse fs code2 uri
      = .ret (hdr, if code2 = "GET" then some data else none) := by
  cases hr : ReadFile fs ("www/" ++ TrimPrefix uri "/") with
  | some data =>
    cases hs : Stat fs ("www/" ++ uri) with
    | none =>
      rw [generateResponse_nil_stat fs code uri data hr hs] at h
      cases h
    | some info =>
      rw [generateResponse_found fs code uri data info hr hs] at h
      refine ⟨data, ?_⟩
      rw [generateResponse_found fs code2 uri data info hr hs]
      cases h
      rfl
  | none =>
    cases h4 : ReadFile fs "www/404.html" with
    | none =>
      unfold generateResponse at h
      simp [hr, h4] at h
    | some F =>
      rw [generateResponse_missing fs code uri F hr h4] at h
      refine ⟨F, ?_⟩
      rw [generateResponse_missing fs code2 uri F hr h4]
      cases h
      rfl

/-- Away from the length limit the response for a file that is read is the 200
response built from that file: when the name `www/` followed by the uri is
shorter than the limit, the lookup of the modification time finds the file whose
bytes were read. -/
theorem generateResponse_found_short (fs : FS) (code uri : String) (f : File) (data : Bytes)
    (hlen : ("www/" ++ uri).length < fs.pathMax)
    (hfile : fs.lookup ("www/" ++ TrimPrefix uri "/") = some f) (hdata : f.data = some data) :
    Stat fs ("www/" ++ uri) = some ⟨f.modTime⟩
      ∧ generateResponse fs code uri
          = .ret ("HTTP/1.1 200 Okay\r\n"
                    ++ ("Content-length: " ++ toString data.length ++ "\r\n")
                    ++ lastModified f.modTime ++ "Server: cihttp\r\n\r\n",
                  if code = "GET" then some data else none) := by
  have hread : ReadFile fs ("www/" ++ TrimPrefix uri "/") = some data := by
    simp [ReadFile, hfile, hdata]
  have hstat : Stat fs ("www/" ++ uri) = some ⟨f.modTime⟩ := by
    simp [Stat, lookup_stat_name_short fs uri hlen, hfile]
  refine ⟨hstat, ?_⟩
  rw [generateResponse_found fs code uri data _ hread hstat, Sprintf_d_nat]
  rfl

/-- The long target path is read and its modification time is not found. -/
theorem long_name_read_stat :
    ReadFile sampleFS ("www/" ++ TrimPrefix longUri "/") = some helloWorld
      ∧ Stat sampleFS ("www/" ++ longUri) = none := by
  constructor
  · unfold ReadFile
    rw [lookup_long_read_name.2]
  · unfold Stat
    rw [lookup_long_stat_name.2]

/-! ## The response contract -/

/-- Claim C1 is broken by the code on a long target path. On a system with a
limit of 4096 bytes on path names, for the target path of 4092 bytes made of
4082 slashes and `index.html`, the read of `www/` followed by the path without
its leading slash succeeds with the twelve bytes of `index.html`, and a `GET`
returns neither header text nor data: the process ends in a panic. -/
theorem get_long_name_panics :
    ReadFile sampleFS ("www/" ++ TrimPrefix longUri "/") = some helloWorld
      ∧ generateResponse sampleFS "GET" longUri = .panic :=
  ⟨long_name_read_stat.1,
    generateResponse_nil_stat sampleFS "GET" longUri helloWorld long_name_read_stat.1
      long_name_read_stat.2⟩

/-- Claim C2. Whenever `generateResponse` returns for a path, a `HEAD` for that
path returns the header text of the `GET` and no data, for a file that exists as
for one that does not, and `handleConnection` writes the header text only. -/
theorem head_same_header_no_payload (fs : FS) (P hdr : String) (pay : Option Bytes)
    (hget : generateResponse fs "GET" P = .ret (hdr, pay)) :
    generateResponse fs "HEAD" P = .ret (hdr, none)
      ∧ ∀ conn, parseRequest conn = .ret ("HEAD", P) →
          handleConnection fs conn = .ret [.Fprint hdr] := by
  obtain ⟨data, hhead⟩ := generateResponse_method fs "GET" P hdr pay hget "HEAD"
  have hhead2 : generateResponse fs "HEAD" P = .ret (hdr, none) := by
    rw [hhead]
    simp
  refine ⟨hhead2, ?_⟩
  intro conn hconn
  unfold handleConnection
  rw [hconn]
  simp only [hhead2]

/-- Claim C2 on the sample content root: `HEAD /index.html`. -/
theorem head_same_header_no_payload_witness :
    generateResponse sampleFS "HEAD" "/index.html"
        = .ret ("HTTP/1.1 200 Okay\r\nContent-length: 12\r\n"
                  ++ "Last-Modified: Tuesday, 05 March 2024 09:07:03 GMT\r\n"
                  ++ "Server: cihttp\r\n\r\n", none)
      ∧ ∀ conn, parseRequest conn = .ret ("HEAD", "/index.html") →
          handleConnection sampleFS conn
            = .ret [.Fprint ("HTTP/1.1 200 Okay\r\nContent-length: 12\r\n"
                  ++ "Last-Modified: Tuesday, 05 March 2024 09:07:03 GMT\r\n"
                  ++ "Server: cihttp\r\n\r\n")] :=
  head_same_header_no_payload sampleFS "/index.html" _ (some helloWorld) (by decide)

/-- Claim C3. For `GET` and `HEAD`, when the read under `www/` fails and
`www/404.html` is readable with bytes `F`, the header text is exactly the status
line `HTTP/1.1 404 Not found`, with no further header line; a `GET` returns `F`
as the data and a `HEAD` returns none. -/
theorem missing_file_404 (fs : FS) (P : String) (F : Bytes)
    (hmiss : ReadFile fs ("www/" ++ TrimPrefix P "/") = none)
    (h404 : ReadFile fs "www/404.html" = some F) :
    generateResponse fs "GET" P = .ret ("HTTP/1.1 404 Not found\r\n", some F)
      ∧ generateResponse fs "HEAD" P = .ret ("HTTP/1.1 404 Not found\r\n", none) := by
  rw [generateResponse_missing fs "GET" P F hmiss h404,
    generateResponse_missing fs "HEAD" P F hmiss h404]
  exact ⟨rfl, rfl⟩

/-- Claim C3 on the sample content root: `/missing.html`. -/
theorem missing_file_404_witness :
    generateResponse sampleFS "GET" "/missing.html"
        = .ret ("HTTP/1.1 404 Not found\r\n", some notFound)
      ∧ generateResponse sampleFS "HEAD" "/missing.html"
        = .ret ("HTTP/1.1 404 Not found\r\n", none) :=
  missing_file_404 sampleFS "/missing.html" notFound (by decide) (by decide)

/-- Claim C7 is broken by the code on a long target path. On a system with a
limit of 4096 bytes on path names, for the target path of 4092 bytes made of
4082 slashes and `index.html`, the file read has twelve bytes and a modification
time, and for no method does `generateResponse` return a header text: the process
ends in a panic before the `Last-Modified` line is built. -/
theorem header_long_name_panics :
    sampleFS.lookup ("www/" ++ TrimPrefix longUri "/") = some ⟨some helloWorld, sampleTime⟩
      ∧ helloWorld.length = 12
      ∧ ∀ code, generateResponse sampleFS code longUri = .panic :=
  ⟨lookup_long_read_name.2, rfl, fun code =>
    generateResponse_nil_stat sampleFS code longUri helloWorld long_name_read_stat.1
      long_name_read_stat.2⟩

/-- Claim C10 is broken by the code on a long target path, on a file system that
treats repeated separators as one. On a system with a limit of 4096 bytes on path
names, the request for the target path of 4092 bytes made of 4082 slashes and
`index.html` is accepted; the read uses a name of 4095 bytes and succeeds with
the bytes of `www/index.html`; the lookup of the modification time uses a name
of 4096 bytes and fails; its error is ignored, the missing result is
dereferenced, and the process ends in a panic without a response. -/
theorem stat_long_name_fails :
    sampleFS.lookup "www//index.html" = sampleFS.lookup "www/index.html"
      ∧ parseRequest ["GET " ++ longUri, " HTTP/1.1\r\n\r\n"] = .ret ("GET", longUri)
      ∧ ("www/" ++ TrimPrefix longUri "/").length = 4095
      ∧ ReadFile sampleFS ("www/" ++ TrimPrefix longUri "/") = some helloWorld
      ∧ ("www/" ++ longUri).length = 4096
      ∧ Stat sampleFS ("www/" ++ longUri) = none
      ∧ handleConnection sampleFS ["GET " ++ longUri, " HTTP/1.1\r\n\r\n"] = .panic := by
  refine ⟨by decide, parseRequest_longUri, lookup_long_read_name.1, long_name_read_stat.1,
    lookup_long_stat_name.1, long_name_read_stat.2, ?_⟩
  unfold handleConnection
  rw [parseRequest_longUri]
  simp only [generateResponse_nil_stat sampleFS "GET" longUri helloWorld long_name_read_stat.1
    long_name_read_stat.2]

/-! ## The request contract -/

/-- Claim C4, amended. For every request line read from the connection,
`parseRequest` ends the process with exit status 1, so that no code and uri are
returned and `handleConnection` produces no response, exactly when the line is
rejected (fewer than two components once the trailing CRLF is removed and the
remainder split on single spaces, or a first component other than `GET` and
`HEAD`) or the reading of a header line buffered behind the request line fails;
in every other case it returns. -/
theorem parseRequest_exit_iff (conn : Conn) (line : String) (rest : Reader)
    (hread : (NewReader conn).ReadString = some (line, rest)) :
    (parseRequest conn = .exit 1 ↔ (rejected line ∨ discardHeaders rest = .exit 1))
      ∧ (parseRequest conn = .exit 1 → ∀ fs, handleConnection fs conn = .exit 1)
      ∧ (parseRequest conn ≠ .exit 1 → ∃ code uri, parseRequest conn = .ret (code, uri)) := by
  refine ⟨?_, ?_, ?_⟩
  · rw [parseRequest_read conn line rest hread]
    rcases discardHeaders_outcome rest with ⟨r, hd⟩ | hd
    · rw [hd]
      simp only
      rw [checks_rejected]
      simp
    · rw [hd]
      simp
  · intro h fs
    unfold handleConnection
    rw [h]
  · intro h
    rcases parseRequest_outcome conn with h1 | h1
    · exact absurd h1 h
    · exact h1

/-- Claim C4, amended, on the line `POST /x HTTP/1.1`. -/
theorem parseRequest_exit_iff_witness :
    (parseRequest ["POST /x HTTP/1.1\r\n"] = .exit 1
        ↔ (rejected "POST /x HTTP/1.1\r\n" ∨ discardHeaders ⟨"", []⟩ = .exit 1))
      ∧ (parseRequest ["POST /x HTTP/1.1\r\n"] = .exit 1 →
          ∀ fs, handleConnection fs ["POST /x HTTP/1.1\r\n"] = .exit 1)
      ∧ (parseRequest ["POST /x HTTP/1.1\r\n"] ≠ .exit 1 →
          ∃ code uri, parseRequest ["POST /x HTTP/1.1\r\n"] = .ret (code, uri)) :=
  parseRequest_exit_iff ["POST /x HTTP/1.1\r\n"] "POST /x HTTP/1.1\r\n" ⟨"", []⟩ (by decide)

/-- Claim C4 as stated fails: the request line `GET / HTTP/1.1` is not rejected,
yet `parseRequest` ends the process with exit status 1 when an unfinished header
line is buffered behind it and the stream ends. -/
theorem parseRequest_exit_on_accepted_line :
    (NewReader ["GET / HTTP/1.1\r\nX"]).ReadString = some ("GET / HTTP/1.1\r\n", ⟨"X", []⟩)
      ∧ ¬ (parseRequest ["GET / HTTP/1.1\r\nX"] = .exit 1 ↔ rejected "GET / HTTP/1.1\r\n") := by
  decide

/-- Claim C5. For every request line that `parseRequest` accepts, the returned
pair is made of the first two components of the line without its trailing CRLF,
split on single spaces: that text is the returned method, a space, the returned
path, and then nothing or a space and the further components, and neither the
method nor the path contains a space. In particular a line made of `GET` or
`HEAD`, a path and a version without space, joined by single spaces and ended by
CRLF, yields that method and that path, and so does the line without a version,
whose path is followed by the CRLF: whenever the header lines buffered behind the
line are read without error, and so whenever the line is all that the connection
delivers. -/
theorem parseRequest_components (conn : Conn) (line : String) (rest : Reader)
    (hread : (NewReader conn).ReadString = some (line, rest)) :
    (∀ code uri, parseRequest conn = .ret (code, uri) →
        ∃ (body : String) (more : List String) (tail : String),
          withoutCRLF line body
            ∧ Split body ' ' = code :: uri :: more
            ∧ body = code ++ " " ++ uri ++ tail
            ∧ ' ' ∉ code.toList ∧ ' ' ∉ uri.toList
            ∧ (tail = "" ∨ ∃ t : String, tail = " " ++ t))
      ∧ (∀ M P V : String, (M = "GET" ∨ M = "HEAD") → ' ' ∉ P.toList → ' ' ∉ V.toList →
          line = M ++ " " ++ P ++ " " ++ V ++ "\r\n" →
          (∃ r, discardHeaders rest = .ret r) → parseRequest conn = .ret (M, P))
      ∧ (∀ M P : String, (M = "GET" ∨ M = "HEAD") → ' ' ∉ P.toList →
          line = M ++ " " ++ P ++ "\r\n" →
          (∃ r, discardHeaders rest = .ret r) → parseRequest conn = .ret (M, P))
      ∧ (∀ M P V : String, (M = "GET" ∨ M = "HEAD") → ' ' ∉ P.toList → ' ' ∉ V.toList →
          '\n' ∉ P.toList → '\n' ∉ V.toList →
          parseRequest [M ++ " " ++ P ++ " " ++ V ++ "\r\n"] = .ret (M, P))
      ∧ (∀ M P : String, (M = "GET" ∨ M = "HEAD") → ' ' ∉ P.toList → '\n' ∉ P.toList →
          parseRequest [M ++ " " ++ P ++ "\r\n"] = .ret (M, P)) := by
  refine ⟨?_, ?_, ?_, ?_, ?_⟩
  · intro code uri h
    obtain ⟨line2, rest2, r, hr, _, more, hs, _⟩ := parseRequest_ret conn code uri h
    rw [hread] at hr
    cases hr
    obtain ⟨tail, ht, htail⟩ := Split_two _ code uri more hs
    refine ⟨TrimSuffix line "\r\n", more, tail, TrimSuffix_withoutCRLF line, hs, ht, ?_, ?_,
      htail⟩
    · apply Split_no_sep (TrimSuffix line "\r\n") ' ' code
      rw [hs]
      simp
    · apply Split_no_sep (TrimSuffix line "\r\n") ' ' uri
      rw [hs]
      simp
  · intro M P V hM hP hV hline hd
    subst hline
    exact parseRequest_line3 conn rest M P V hM hP hV hread hd
  · intro M P hM hP hline hd
    subst hline
    exact parseRequest_line2 conn rest M P hM hP hread hd
  · intro M P V hM hP hV hPn hVn
    have hMn : '\n' ∉ M.toList := by
      rcases hM with rfl | rfl <;> decide
    have hline : M ++ " " ++ P ++ " " ++ V ++ "\r\n"
        = (M ++ " " ++ P ++ " " ++ V ++ "\r") ++ "\n" := by
      rw [String.append_assoc _ "\r" "\n"]
      rfl
    have hpre : '\n' ∉ (M ++ " " ++ P ++ " " ++ V ++ "\r").toList := by
      simp [String.toList] at hMn hPn hVn ⊢
      exact ⟨hMn, hPn, hVn⟩
    have hr := ReadString_single _ hpre
    rw [← hline] at hr
    exact parseRequest_line3 _ _ M P V hM hP hV hr ⟨_, discardHeaders_empty []⟩
  · intro M P hM hP hPn
    have hMn : '\n' ∉ M.toList := by
      rcases hM with rfl | rfl <;> decide
    have hline : M ++ " " ++ P ++ "\r\n" = (M ++ " " ++ P ++ "\r") ++ "\n" := by
      rw [String.append_assoc _ "\r" "\n"]
      rfl
    have hpre : '\n' ∉ (M ++ " " ++ P ++ "\r").toList := by
      simp [String.toList] at hMn hPn ⊢
      exact ⟨hMn, hPn⟩
    have hr := ReadString_single _ hpre
    rw [← hline] at hr
    exact parseRequest_line2 _ _ M P hM hP hr ⟨_, discardHeaders_empty []⟩

/-- Claim C5 on the request line `GET /a` ended by CRLF: the path is returned
without the CRLF. -/
theorem parseRequest_components_witness :
    parseRequest ["GET /a\r\n"] = .ret ("GET", "/a") :=
  (parseRequest_components ["GET /a\r\n"] "GET /a\r\n" ⟨"", []⟩ (by decide)).2.2.1
    "GET" "/a" (by decide) (by decide) (by decide) ⟨⟨"", []⟩, by decide⟩

/-- Claim C6, amended. For every request line that `parseRequest` accepts, the
returned target path is the second component of the line exactly as it was sent:
the text between the first space of the line and the next space, or the end of
the line once its CRLF is removed. It contains no space; `parseRequest` does not
look at its first character, which is a slash only when the client sent one. -/
theorem parseRequest_uri (conn : Conn) (code uri : String)
    (h : parseRequest conn = .ret (code, uri)) :
    ∃ (line : String) (rest : Reader) (more : List String) (tail : String),
      (NewReader conn).ReadString = some (line, rest)
        ∧ Split (TrimSuffix line "\r\n") ' ' = code :: uri :: more
        ∧ ' ' ∉ code.toList ∧ ' ' ∉ uri.toList
        ∧ TrimSuffix line "\r\n" = code ++ " " ++ uri ++ tail
        ∧ (tail = "" ∨ ∃ t : String, tail = " " ++ t) := by
  obtain ⟨line, rest, r, hr, _, more, hs, _⟩ := parseRequest_ret conn code uri h
  obtain ⟨tail, ht, htail⟩ := Split_two _ code uri more hs
  refine ⟨line, rest, more, tail, hr, hs, ?_, ?_, ht, htail⟩
  · apply Split_no_sep (TrimSuffix line "\r\n") ' ' code
    rw [hs]
    simp
  · apply Split_no_sep (TrimSuffix line "\r\n") ' ' uri
    rw [hs]
    simp

/-- Claim C6, amended, on the request `GET /index.html HTTP/1.1`. -/
theorem parseRequest_uri_witness :
    ∃ (line : String) (rest : Reader) (more : List String) (tail : String),
      (NewReader ["GET /index.html HTTP/1.1\r\n\r\n"]).ReadString = some (line, rest)
        ∧ Split (TrimSuffix line "\r\n") ' ' = "GET" :: "/index.html" :: more
        ∧ ' ' ∉ "GET".toList ∧ ' ' ∉ "/index.html".toList
        ∧ TrimSuffix line "\r\n" = "GET" ++ " " ++ "/index.html" ++ tail
        ∧ (tail = "" ∨ ∃ t : String, tail = " " ++ t) :=
  parseRequest_uri ["GET /index.html HTTP/1.1\r\n\r\n"] "GET" "/index.html" (by decide)

/-- Claim C6 as stated fails: the request line `GET index.html HTTP/1.1` is
accepted and the returned target path does not begin with a slash. -/
theorem parseRequest_uri_without_slash :
    parseRequest ["GET index.html HTTP/1.1\r\n"] = .ret ("GET", "index.html")
      ∧ ¬ beginsWithSlash "index.html" := by
  decide


/-! ## Formatting of the modification time -/

/-- A number below one hundred is printed by `%02d` as its two digits. -/
theorem Sprintf_02d_twoDigits : ∀ n, n < 100 → Sprintf_02d n = twoDigits n := by
  decide

theorem toDigitsCore_more (fuel n : Nat) (ds : List Char) (h : n / 10 ≠ 0) :
    Nat.toDigitsCore 10 (fuel + 1) n ds
      = Nat.toDigitsCore 10 fuel (n / 10) (Nat.digitChar (n % 10) :: ds) := by
  simp [Nat.toDigitsCore, h]

theorem toDigitsCore_last (fuel n : Nat) (ds : List Char) (h : n / 10 = 0) :
    Nat.toDigitsCore 10 (fuel + 1) n ds = Nat.digitChar (n % 10) :: ds := by
  simp [Nat.toDigitsCore, h]

/-- A number from 1000 to 9999 is printed in decimal as its four digits. -/
theorem repr_fourDigits (n : Nat) (h1 : 1000 ≤ n) (h2 : n ≤ 9999) :
    toString n = fourDigits n := by
  have hfuel : n + 1 = (n - 3) + 1 + 1 + 1 + 1 := by omega
  show (Nat.toDigits 10 n).asString = fourDigits n
  unfold Nat.toDigits
  rw [hfuel, toDigitsCore_more _ _ _ (by omega), toDigitsCore_more _ _ _ (by omega),
    toDigitsCore_more _ _ _ (by omega), toDigitsCore_last _ _ _ (by omega)]
  unfold fourDigits
  have e1 : n / 10 / 10 / 10 % 10 = n / 1000 := by omega
  have e2 : n / 10 / 10 % 10 = n / 100 % 10 := by omega
  rw [e1, e2]
  rfl

/-- A year from 1000 to 9999 is printed by `%d` as its four digits. -/
theorem Sprintf_d_fourDigits (y : Int) (h1 : 1000 ≤ y) (h2 : y ≤ 9999) :
    Sprintf_d y = fourDigits y.toNat := by
  obtain ⟨n, rfl⟩ : ∃ n : Nat, y = (n : Int) := ⟨y.toNat, by omega⟩
  rw [Sprintf_d_nat, Int.toNat_ofNat]
  exact repr_fourDigits n (by omega) (by omega)

theorem stripText_append (s cs : List Char) : stripText s (s ++ cs) = some cs := by
  induction s with
  | nil => cases cs <;> rfl
  | cons p ps ih => simp [stripText, ih]

theorem matchPieces_text (s : String) (ps : List Piece) (cs : List Char) :
    matchPieces (.text s :: ps) (s.toList ++ cs) = matchPieces ps cs := by
  simp [matchPieces, stripText_append]

theorem matchPieces_text_end (s : String) : matchPieces [.text s] s.toList = true := by
  have := matchPieces_text s [] []
  rw [List.append_nil] at this
  rw [this]
  rfl

theorem digitChar_isDigit : ∀ k, k < 10 → (Nat.digitChar k).isDigit = true := by
  decide

theorem matchPieces_twoDigits (n : Nat) (h : n < 100) (ps : List Piece) (cs : List Char) :
    matchPieces (.digit :: .digit :: ps) ((twoDigits n).toList ++ cs) = matchPieces ps cs := by
  have h1 := digitChar_isDigit (n / 10) (by omega)
  have h2 := digitChar_isDigit (n % 10) (by omega)
  simp [twoDigits, matchPieces, h1, h2]

theorem matchPieces_fourDigits (n : Nat) (h : n < 10000) (ps : List Piece) (cs : List Char) :
    matchPieces (.digit :: .digit :: .digit :: .digit :: ps) ((fourDigits n).toList ++ cs)
      = matchPieces ps cs := by
  have h1 := digitChar_isDigit (n / 1000) (by omega)
  have h2 := digitChar_isDigit (n / 100 % 10) (by omega)
  have h3 := digitChar_isDigit (n / 10 % 10) (by omega)
  have h4 := digitChar_isDigit (n % 10) (by omega)
  simp [fourDigits, matchPieces, h1, h2, h3, h4]

/-- A text built from a day name, two digits, a month name, four digits and three
times two digits, with the separators of the pattern, matches the pattern. -/
theorem matchesDatePattern_built (wd : Weekday) (mo : Month) (d y h m s : Nat)
    (hd : d < 100) (hy : y < 10000) (hh : h < 100) (hm : m < 100) (hs : s < 100) :
    matchesDatePattern (wd.String ++ ", " ++ twoDigits d ++ " " ++ mo.String ++ " "
      ++ fourDigits y ++ " " ++ twoDigits h ++ ":" ++ twoDigits m ++ ":" ++ twoDigits s
      ++ " GMT") = true := by
  unfold matchesDatePattern
  rw [List.any_eq_true]
  refine ⟨wd, by cases wd <;> decide, ?_⟩
  rw [List.any_eq_true]
  refine ⟨mo, by cases mo <;> decide, ?_⟩
  have hv : (wd.String ++ ", " ++ twoDigits d ++ " " ++ mo.String ++ " "
      ++ fourDigits y ++ " " ++ twoDigits h ++ ":" ++ twoDigits m ++ ":" ++ twoDigits s
      ++ " GMT").toList
      = wd.String.toList ++ (", ".toList ++ ((twoDigits d).toList ++ (" ".toList
        ++ (mo.String.toList ++ (" ".toList ++ ((fourDigits y).toList ++ (" ".toList
        ++ ((twoDigits h).toList ++ (":".toList ++ ((twoDigits m).toList ++ (":".toList
        ++ ((twoDigits s).toList ++ " GMT".toList)))))))))))) := by
    simp only [String.toList, String.data_append, List.append_assoc]
  rw [hv]
  unfold datePattern
  rw [matchPieces_text, matchPieces_text, matchPieces_twoDigits d hd, matchPieces_text,
    matchPieces_text, matchPieces_text, matchPieces_fourDigits y hy, matchPieces_text,
    matchPieces_twoDigits h hh, matchPieces_text, matchPieces_twoDigits m hm, matchPieces_text,
    matchPieces_twoDigits s hs, matchPieces_text_end]

/-- Claim C8, amended. For every modification time with a day from 1 to 31, an
hour up to 23, a minute and a second up to 59, and a year from 1000 to 9999, the
value of the `Last-Modified` line is the full English day name, a comma and a
space, the day as two zero-padded digits, the full English month name, the year
as four digits, and the hour, minute and second each as two zero-padded digits
separated by colons, followed by ` GMT`; it matches the pattern
`Weekday, DD Month YYYY HH:MM:SS GMT`. The year is printed without padding, so
it has four digits for these years only. -/
theorem lastModified_pattern (t : Time) (hday : 1 ≤ t.Day ∧ t.Day ≤ 31)
    (hhour : t.Hour ≤ 23) (hmin : t.Minute ≤ 59) (hsec : t.Second ≤ 59)
    (hyear : 1000 ≤ t.Year ∧ t.Year ≤ 9999) :
    ∃ value : String,
      lastModified t = "Last-Modified: " ++ value ++ "\r\n"
        ∧ value = t.Weekday.String ++ ", " ++ twoDigits t.Day ++ " " ++ t.Month.String ++ " "
            ++ fourDigits t.Year.toNat ++ " " ++ twoDigits t.Hour ++ ":"
            ++ twoDigits t.Minute ++ ":" ++ twoDigits t.Second ++ " GMT"
        ∧ matchesDatePattern value = true := by
  refine ⟨_, ?_, rfl, ?_⟩
  · simp only [lastModified]
    rw [Sprintf_02d_twoDigits t.Day (by omega), Sprintf_02d_twoDigits t.Hour (by omega),
      Sprintf_02d_twoDigits t.Minute (by omega), Sprintf_02d_twoDigits t.Second (by omega),
      Sprintf_d_fourDigits t.Year hyear.1 hyear.2]
    have e : " GMT\r\n" = " GMT" ++ "\r\n" := by decide
    rw [e]
    simp only [String.append_assoc]
  · exact matchesDatePattern_built t.Weekday t.Month t.Day t.Year.toNat t.Hour t.Minute
      t.Second (by omega) (by omega) (by omega) (by omega) (by omega)

/-- Claim C8, amended, on Tuesday 5 March 2024, 09:07:03. -/
theorem lastModified_pattern_witness :
    ∃ value : String,
      lastModified sampleTime = "Last-Modified: " ++ value ++ "\r\n"
        ∧ value = sampleTime.Weekday.String ++ ", " ++ twoDigits sampleTime.Day ++ " "
            ++ sampleTime.Month.String ++ " "
            ++ fourDigits sampleTime.Year.toNat ++ " " ++ twoDigits sampleTime.Hour ++ ":"
            ++ twoDigits sampleTime.Minute ++ ":" ++ twoDigits sampleTime.Second ++ " GMT"
        ∧ matchesDatePattern value = true :=
  lastModified_pattern sampleTime (by decide) (by decide) (by decide) (by decide) (by decide)

/-- Claim C8 as stated fails: for a modification time in the year 999 the year is
printed with three digits, and the value does not match the pattern. -/
theorem lastModified_year_999 :
    (1 ≤ year999.Day ∧ year999.Day ≤ 31 ∧ year999.Hour ≤ 23 ∧ year999.Minute ≤ 59
        ∧ year999.Second ≤ 59)
      ∧ lastModified year999
          = "Last-Modified: " ++ "Tuesday, 01 January 999 00:00:00 GMT" ++ "\r\n"
      ∧ matchesDatePattern "Tuesday, 01 January 999 00:00:00 GMT" = false := by
  decide

/-! ## The content root -/

theorem resolveSegments_skip (done segs : List String) (seg : String)
    (h : seg = "" ∨ seg = ".") :
    resolveSegments done (seg :: segs) = resolveSegments done segs := by
  conv_lhs => unfold resolveSegments
  rw [if_pos h]

theorem resolveSegments_push (done segs : List String) (seg : String)
    (h1 : ¬ (seg = "" ∨ seg = ".")) (h2 : seg ≠ "..") :
    resolveSegments done (seg :: segs) = resolveSegments (seg :: done) segs := by
  conv_lhs => unfold resolveSegments
  rw [if_neg h1, if_neg h2]

theorem resolveSegments_pop (top : String) (below segs : List String) (h : top ≠ "..") :
    resolveSegments (top :: below) (".." :: segs) = resolveSegments below segs := by
  conv_lhs => unfold resolveSegments
  rw [if_neg (by decide), if_pos rfl]
  simp only [if_neg h]

theorem resolveSegments_climb (n : Nat) (segs : List String) :
    resolveSegments (List.replicate n "..") (".." :: segs)
      = resolveSegments (List.replicate (n + 1) "..") segs := by
  conv_lhs => unfold resolveSegments
  rw [if_neg (by decide), if_pos rfl]
  cases n with
  | zero => rfl
  | succ n =>
    rw [List.replicate_succ]
    simp only [if_true]
    rfl

/-- The run of the resolution from a stack that stands on `..` segments does not
depend on how many of them there are. -/
theorem resolveSegments_base (segs : List String) :
    ∀ (D : List String) (j : Nat), ".." ∉ D →
      ∃ (D2 : List String) (j2 : Nat), ".." ∉ D2 ∧
        ∀ k, resolveSegments (D ++ List.replicate (j + k) "..") segs
          = (D2 ++ List.replicate (j2 + k) "..").reverse := by
  induction segs with
  | nil =>
    intro D j hD
    exact ⟨D, j, hD, fun k => by rw [resolveSegments]⟩
  | cons seg segs ih =>
    intro D j hD
    by_cases h1 : seg = "" ∨ seg = "."
    · obtain ⟨D2, j2, hD2, h⟩ := ih D j hD
      exact ⟨D2, j2, hD2, fun k => by rw [resolveSegments_skip _ _ _ h1, h k]⟩
    · by_cases h2 : seg = ".."
      · subst h2
        cases D with
        | nil =>
          obtain ⟨D2, j2, hD2, h⟩ := ih [] (j + 1) (by simp)
          refine ⟨D2, j2, hD2, fun k => ?_⟩
          have := h k
          rw [List.nil_append] at this ⊢
          rw [resolveSegments_climb, ← this]
          congr 2
          omega
        | cons d D0 =>
          have hd : d ≠ ".." := fun e => hD (e ▸ List.mem_cons_self _ _)
          have hD0 : ".." ∉ D0 := fun e => hD (List.mem_cons_of_mem _ e)
          obtain ⟨D2, j2, hD2, h⟩ := ih D0 j hD0
          refine ⟨D2, j2, hD2, fun k => ?_⟩
          rw [List.cons_append, resolveSegments_pop _ _ _ hd, h k]
      · have hD1 : ".." ∉ seg :: D := by
          intro e
          rcases List.mem_cons.mp e with e | e
          · exact h2 e.symm
          · exact hD e
        obtain ⟨D2, j2, hD2, h⟩ := ih (seg :: D) j hD1
        refine ⟨D2, j2, hD2, fun k => ?_⟩
        rw [resolveSegments_push _ _ _ h1 h2, ← List.cons_append, h k]

/-- The resolution of segments below a directory `x` either stays below `x`, or
climbs above it and goes on as the resolution of the segments alone does, one
level higher. -/
theorem resolveSegments_below (x : String) (hx : x ≠ "..") (segs : List String) :
    ∀ D : List String, ".." ∉ D →
      (∃ D2 : List String, ".." ∉ D2
          ∧ resolveSegments (D ++ [x]) segs = (D2 ++ [x]).reverse
          ∧ resolveSegments D segs = D2.reverse)
        ∨ (∃ (D2 : List String) (j2 : Nat), ".." ∉ D2
          ∧ resolveSegments (D ++ [x]) segs = (D2 ++ List.replicate j2 "..").reverse
          ∧ resolveSegments D segs = (D2 ++ List.replicate (j2 + 1) "..").reverse) := by
  induction segs with
  | nil =>
    intro D hD
    exact Or.inl ⟨D, hD, by rw [resolveSegments], by rw [resolveSegments]⟩
  | cons seg segs ih =>
    intro D hD
    by_cases h1 : seg = "" ∨ seg = "."
    · rw [resolveSegments_skip _ _ _ h1, resolveSegments_skip _ _ _ h1]
      exact ih D hD
    · by_cases h2 : seg = ".."
      · subst h2
        cases D with
        | nil =>
          right
          obtain ⟨D2, j2, hD2, h⟩ := resolveSegments_base segs [] 0 (by simp)
          refine ⟨D2, j2, hD2, ?_, ?_⟩
          · have := h 0
            rw [List.nil_append] at this ⊢
            rw [resolveSegments_pop _ _ _ hx]
            simpa using this
          · have := h 1
            rw [List.nil_append] at this
            have e := resolveSegments_climb 0 segs
            rw [List.replicate_zero] at e
            rw [e]
            simpa using this
        | cons d D0 =>
          have hd : d ≠ ".." := fun e => hD (e ▸ List.mem_cons_self _ _)
          have hD0 : ".." ∉ D0 := fun e => hD (List.mem_cons_of_mem _ e)
          rw [List.cons_append, resolveSegments_pop _ _ _ hd, resolveSegments_pop _ _ _ hd]
          exact ih D0 hD0
      · have hD1 : ".." ∉ seg :: D := by
          intro e
          rcases List.mem_cons.mp e with e | e
          · exact h2 e.symm
          · exact hD e
        rw [resolveSegments_push _ _ _ h1 h2, resolveSegments_push _ _ _ h1 h2,
          ← List.cons_append]
        exact ih (seg :: D) hD1

theorem Split_www (x : String) : Split ("www/" ++ x) '/' = "www" :: Split x '/' := by
  unfold Split List.splitOn
  have h : ("www/" ++ x).toList = 'w' :: 'w' :: 'w' :: '/' :: x.toList := by
    simp [String.toList]
  rw [h]
  simp only [List.splitOnP_cons]
  cases hs : List.splitOnP (fun c => c == '/') x.toList with
  | nil => exact absurd hs (List.splitOnP_ne_nil _ _)
  | cons a l => simp [List.modifyHead]

/-- The name `www/` followed by a path lies inside the content root exactly when
the path, resolved on its own, does not begin with `..`, or begins with `..` and
then `www`. -/
theorem insideRoot_www (p : String) :
    insideRoot ("www/" ++ p)
      ↔ ((resolvePath p).head? ≠ some ".." ∨ ∃ t, resolvePath p = ".." :: "www" :: t) := by
  unfold insideRoot resolvePath
  rw [Split_www, resolveSegments_push _ _ _ (by decide) (by decide)]
  have hne : ("www" : String) ≠ ".." := by decide
  rcases resolveSegments_below "www" hne (Split p '/') [] (by simp)
    with ⟨D2, hD2, hW, hP⟩ | ⟨D2, j2, hD2, hW, hP⟩
  · rw [List.nil_append] at hW
    rw [hW, hP]
    have hhead : D2.reverse.head? ≠ some ".." := by
      intro h
      cases hr : D2.reverse with
      | nil => rw [hr] at h; cases h
      | cons r t =>
        rw [hr] at h
        simp only [List.head?_cons, Option.some.injEq] at h
        apply hD2
        rw [← List.mem_reverse, hr, h]
        exact List.mem_cons_self _ _
    constructor
    · intro _
      exact Or.inl hhead
    · intro _
      rw [List.reverse_append]
      rfl
  · rw [List.nil_append] at hW
    rw [hW, hP]
    cases j2 with
    | zero =>
      simp only [List.replicate_zero, List.append_nil, zero_add, List.replicate_one,
        List.reverse_append, List.reverse_singleton, List.singleton_append, List.head?_cons]
      cases D2.reverse with
      | nil => simp
      | cons r t => simp
    | succ j =>
      have eW : (D2 ++ List.replicate (j + 1) "..").reverse
          = ".." :: (List.replicate j ".." ++ D2.reverse) := by
        rw [List.reverse_append, List.reverse_replicate, List.replicate_succ, List.cons_append]
      have eP : (D2 ++ List.replicate (j + 1 + 1) "..").reverse
          = ".." :: ".." :: (List.replicate j ".." ++ D2.reverse) := by
        rw [List.reverse_append, List.reverse_replicate, List.replicate_succ,
          List.replicate_succ, List.cons_append, List.cons_append]
      rw [eW, eP]
      constructor
      · intro h
        simp only [List.head?_cons, Option.some.injEq] at h
        exact absurd h (by decide)
      · intro h
        rcases h with h | ⟨t, h⟩
        · exact absurd rfl h
        · simp only [List.cons.injEq, true_and] at h
          exact absurd h.1 (by decide)

/-- The result of `generateResponse` depends on the file system only through
what three names resolve to: `www/` followed by the uri without one leading slash,
`www/` followed by the uri, and the fallback `www/404.html`. -/
theorem generateResponse_frame (fs fs2 : FS) (code uri : String)
    (hfile : fs.lookup ("www/" ++ TrimPrefix uri "/") = fs2.lookup ("www/" ++ TrimPrefix uri "/"))
    (hstat : fs.lookup ("www/" ++ uri) = fs2.lookup ("www/" ++ uri))
    (h404 : fs.lookup "www/404.html" = fs2.lookup "www/404.html") :
    generateResponse fs code uri = generateResponse fs2 code uri := by
  have r1 : ReadFile fs ("www/" ++ TrimPrefix uri "/")
      = ReadFile fs2 ("www/" ++ TrimPrefix uri "/") := by
    unfold ReadFile
    rw [hfile]
  have r2 : ReadFile fs "www/404.html" = ReadFile fs2 "www/404.html" := by
    unfold ReadFile
    rw [h404]
  have r3 : Stat fs ("www/" ++ uri) = Stat fs2 ("www/" ++ uri) := by
    unfold Stat
    rw [hstat]
  unfold generateResponse
  simp only [r1, r2, r3]

/-- Claim C9, amended. For every request that `parseRequest` accepts, the file
that `generateResponse` reads is named `www/` followed by the target path without
one leading slash. The name is not sanitised: once its `.` and `..` segments are
resolved it lies inside the directory `www` exactly when the target path,
resolved on its own, does not begin with `..` (its `..` segments never climb
above the content root) or begins with `..` and then `www` (it climbs one level
and enters `www` again by name). Besides that name, only the name `www/` followed
by the target path, used for the modification time and resolving to the same
file when it resolves, and the fallback `www/404.html` decide the response that
`handleConnection` sends. -/
theorem read_name_inside (conn : Conn) (code uri : String)
    (haccept : parseRequest conn = .ret (code, uri)) :
    (insideRoot ("www/" ++ TrimPrefix uri "/")
        ↔ ((resolvePath (TrimPrefix uri "/")).head? ≠ some ".."
            ∨ ∃ t, resolvePath (TrimPrefix uri "/") = ".." :: "www" :: t))
      ∧ (∀ (fs : FS) (f : File), fs.lookup ("www/" ++ uri) = some f →
          fs.lookup ("www/" ++ TrimPrefix uri "/") = some f)
      ∧ ∀ fs fs2 : FS,
          fs.lookup ("www/" ++ TrimPrefix uri "/") = fs2.lookup ("www/" ++ TrimPrefix uri "/") →
          fs.lookup ("www/" ++ uri) = fs2.lookup ("www/" ++ uri) →
          fs.lookup "www/404.html" = fs2.lookup "www/404.html" →
          generateResponse fs code uri = generateResponse fs2 code uri
            ∧ handleConnection fs conn = handleConnection fs2 conn := by
  refine ⟨insideRoot_www _, fun fs f h => lookup_stat_name fs uri f h,
    fun fs fs2 h1 h2 h3 => ?_⟩
  have hgen := generateResponse_frame fs fs2 code uri h1 h2 h3
  refine ⟨hgen, ?_⟩
  unfold handleConnection
  rw [haccept]
  simp only [hgen]

/-- Claim C9, amended, on the request `GET /a/../index.html HTTP/1.1`, whose `..`
segment does not climb above the content root. -/
theorem read_name_inside_witness :
    insideRoot ("www/" ++ TrimPrefix "/a/../index.html" "/") :=
  (read_name_inside ["GET /a/../index.html HTTP/1.1\r\n\r\n"] "GET" "/a/../index.html"
    (by decide)).1.mpr (Or.inl (by decide))

/-- Claim C9 as stated fails: the request `GET /../main.go HTTP/1.1` is accepted,
the file read is `www/../main.go`, which resolves to `main.go` outside the
directory `www`, and its bytes are returned. -/
theorem read_outside_root :
    parseRequest ["GET /../main.go HTTP/1.1\r\n\r\n"] = .ret ("GET", "/../main.go")
      ∧ resolvePath ("www/" ++ TrimPrefix "/../main.go" "/") = ["main.go"]
      ∧ ¬ insideRoot ("www/" ++ TrimPrefix "/../main.go" "/")
      ∧ generateResponse sampleFS "GET" "/../main.go"
          = .ret ("HTTP/1.1 200 Okay\r\nContent-length: 1\r\n"
                    ++ "Last-Modified: Tuesday, 05 March 2024 09:07:03 GMT\r\n"
                    ++ "Server: cihttp\r\n\r\n", some [112]) := by
  decide

end HttpServer
